import Mathlib

/-!
Shallow embedding of the core of `src/journal.py` (Journal v2.0):
`JournalStorage` (load/save of the entry collection with a temp-file
atomic replace), `JournalModel` (in-memory list of entries with
add/update/delete/search), and `JournalController` (input validation).

External effects are made explicit: the fresh UUID and the current
timestamp become input parameters, the storage file becomes an abstract
file-system state, and JSON parsing becomes an abstract outcome.  A call
to `storage.save_entries` from the model is recorded by incrementing a
`saveCount` field, so that "persists" / "does not persist" claims are
statable.
-/

/-- One journal record, the dict built in `JournalModel.add_entry`:
`{"unique_id": ..., "entry_number": ..., "title": ..., "content": ...,
"date_time": ...}`. -/
structure Entry where
  unique_id : String
  entry_number : Nat
  title : String
  content : String
  date_time : String
deriving Repr, DecidableEq

/-- The fields of an entry other than `entry_number`: used to state that
an operation preserves identity and text of entries. -/
def entryData (e : Entry) : String × String × String × String :=
  (e.unique_id, e.title, e.content, e.date_time)

/-- The in-memory state of `JournalModel`: the ordered entry list plus an
instrumentation counter of how many times `storage.save_entries` has been
invoked (the model calls it on every successful mutation). -/
structure JournalModel where
  entries : List Entry
  saveCount : Nat
deriving Repr, DecidableEq

/-- A model whose collection is empty, as after loading a missing file. -/
def emptyModel : JournalModel := { entries := [], saveCount := 0 }

namespace JournalModel

/-- Embedding of `JournalModel.add_entry(title, content)`.  The fresh
`str(uuid.uuid4())` and the `datetime.now()` timestamp are passed in as
`uid` and `dt`.  Builds the new entry with `entry_number = len + 1`,
appends it, saves, and returns it. -/
def add_entry (m : JournalModel) (uid dt title content : String) :
    JournalModel × Entry :=
  let entry_number := m.entries.length + 1
  let new_entry : Entry :=
    { unique_id := uid, entry_number := entry_number, title := title,
      content := content, date_time := dt }
  ({ entries := m.entries ++ [new_entry], saveCount := m.saveCount + 1 },
   new_entry)

/-- Pointwise update of the element at index `i`, the effect of the three
`self.entries[index][...] = ...` assignments. -/
def modifyAt (l : List Entry) (i : Nat) (f : Entry → Entry) : List Entry :=
  match l, i with
  | [], _ => []
  | e :: rest, 0 => f e :: rest
  | e :: rest, n + 1 => e :: modifyAt rest n f

/-- Embedding of `JournalModel.update_entry(index, title, content)`.
Python indices are `int`, so `index : Int`; the guard is the source's
`0 <= index < len(self.entries)`.  On success the entry's title, content
and date_time are overwritten, the collection is saved, and `True` is
returned; otherwise `False` with no change. -/
def update_entry (m : JournalModel) (index : Int) (dt title content : String) :
    JournalModel × Bool :=
  if 0 ≤ index ∧ index < (m.entries.length : Int) then
    let entries := modifyAt m.entries index.toNat
      (fun e => { e with title := title, content := content, date_time := dt })
    ({ entries := entries, saveCount := m.saveCount + 1 }, true)
  else
    (m, false)

/-- Removal of the element at index `i`, the effect of
`self.entries.pop(index)` for an in-range index. -/
def popAt : List Entry → Nat → List Entry
  | [], _ => []
  | _ :: rest, 0 => rest
  | e :: rest, n + 1 => e :: popAt rest n

/-- The renumbering loop `for i, entry in enumerate(self.entries):
entry["entry_number"] = i + 1`, started at position `n`. -/
def renumberFrom (n : Nat) : List Entry → List Entry
  | [] => []
  | e :: rest => { e with entry_number := n + 1 } :: renumberFrom (n + 1) rest

/-- The full renumbering pass of `delete_entry` (enumerate starts at 0). -/
def renumber (l : List Entry) : List Entry := renumberFrom 0 l

/-- Embedding of `JournalModel.delete_entry(index)`.  On an in-range
index it pops the entry, renumbers every remaining entry to its position
plus one, saves, and returns `True`; otherwise returns `False` with no
change. -/
def delete_entry (m : JournalModel) (index : Int) : JournalModel × Bool :=
  if 0 ≤ index ∧ index < (m.entries.length : Int) then
    ({ entries := renumber (popAt m.entries index.toNat),
       saveCount := m.saveCount + 1 }, true)
  else
    (m, false)

end JournalModel

/-- Lower-casing of a string, `str.lower()` (the entries here are ASCII;
`Char.toLower` agrees with Python on ASCII). -/
def strLower (s : String) : String := ⟨s.data.map Char.toLower⟩

/-- Prefix test on character lists, the base of Python's substring `in`. -/
def isPrefixOfChars : List Char → List Char → Bool
  | [], _ => true
  | _ :: _, [] => false
  | a :: as, b :: bs => a == b && isPrefixOfChars as bs

/-- Substring containment on character lists: Python's `needle in
haystack` for strings.  The empty needle is contained in everything. -/
def containsChars (needle : List Char) : List Char → Bool
  | [] => isPrefixOfChars needle []
  | c :: cs => isPrefixOfChars needle (c :: cs) || containsChars needle cs

namespace JournalModel

/-- The accumulation loop of `search_entries`: walk the entries carrying
the running index `idx`, keeping `(idx, entry)` whenever the lowered
keyword occurs in the lowered title or the lowered content. -/
def searchFrom (kl : String) (idx : Nat) : List Entry → List (Nat × Entry)
  | [] => []
  | e :: rest =>
    if containsChars kl.data (strLower e.title).data
        || containsChars kl.data (strLower e.content).data then
      (idx, e) :: searchFrom kl (idx + 1) rest
    else
      searchFrom kl (idx + 1) rest

/-- Embedding of `JournalModel.search_entries(keyword)`: lower the
keyword once, then scan `enumerate(self.entries)` collecting matches. -/
def search_entries (m : JournalModel) (keyword : String) : List (Nat × Entry) :=
  searchFrom (strLower keyword) 0 m.entries

end JournalModel

/-- The error conditions the controller raises: `ValueError("Title
empty")` for a blank title and `IndexError` when the model reports
failure. -/
inductive JournalError where
  | emptyTitle
  | notFound
deriving Repr, DecidableEq

/-- Test for a Python whitespace character, `str.isspace()` on ASCII. -/
def pyIsSpace (c : Char) : Bool :=
  c = ' ' || c = '\t' || c = '\n' || c = '\x0d' || c = '\x0b' || c = '\x0c'

/-- Python's `str.strip()`: drop whitespace from both ends. -/
def pyStrip (s : String) : String :=
  ⟨((s.data.dropWhile pyIsSpace).reverse.dropWhile pyIsSpace).reverse⟩

namespace JournalController

/-- Embedding of `JournalController.add_new_entry(title, content)`.
If the stripped title is empty, raises `ValueError` ("EmptyTitle") and
touches nothing; otherwise delegates to `add_entry` with both fields
stripped.  Returns the outcome together with the resulting model. -/
def add_new_entry (m : JournalModel) (uid dt title content : String) :
    Except JournalError Entry × JournalModel :=
  if pyStrip title = "" then
    (.error .emptyTitle, m)
  else
    let r := m.add_entry uid dt (pyStrip title) (pyStrip content)
    (.ok r.2, r.1)

/-- Embedding of `JournalController.edit_entry(index, title, content)`.
The empty-title check comes first; only past it is
`model.update_entry` invoked, and its `False` turned into `IndexError`
("NotFound").  The third component records whether the model was
consulted at all. -/
def edit_entry (m : JournalModel) (index : Int) (dt title content : String) :
    Except JournalError Unit × JournalModel × Bool :=
  if pyStrip title = "" then
    (.error .emptyTitle, m, false)
  else
    let r := m.update_entry index dt (pyStrip title) (pyStrip content)
    if r.2 then (.ok (), r.1, true) else (.error .notFound, r.1, true)

end JournalController

/-- The state of the persisted file as `load_entries` can observe it. -/
inductive DiskFile where
  | absent
  | content (raw : String)

/-- Outcome of the external `json.load` call on the file's text:
a parsed entry list, a `JSONDecodeError`, or any other exception
(permissions, device errors) raised while opening or reading. -/
inductive ParseOutcome where
  | ok (entries : List Entry)
  | jsonError
  | otherError
deriving Repr, DecidableEq

/-- What `load_entries` reports to the user (via log + messagebox). -/
inductive LoadReport where
  | noError
  | corruption
  | ioFailure
deriving Repr, DecidableEq

/-- Embedding of `JournalStorage.load_entries`.  The file system and the
JSON parser are abstracted into `file` and `parse`.  A missing file gives
an empty list silently; a `JSONDecodeError` is caught, reported as
corruption, and an empty list returned; any other exception is caught,
reported, and an empty list returned.  Nothing escapes to the caller. -/
def load_entries (file : DiskFile) (parse : String → ParseOutcome) :
    List Entry × LoadReport :=
  match file with
  | .absent => ([], .noError)
  | .content raw =>
    match parse raw with
    | .ok es => (es, .noError)
    | .jsonError => ([], .corruption)
    | .otherError => ([], .ioFailure)

/-- The two files `save_entries` touches: the target (`self.filename`)
and the temporary file created next to it.  `none` means the file does
not exist. -/
structure FS where
  target : Option String
  temp : Option String
deriving Repr, DecidableEq

/-- Where, if anywhere, `save_entries` fails: creating the temporary
file, writing the serialized data into it (leaving partial content
`partialData`), or moving it over the target. -/
inductive SaveFail where
  | noFail
  | createTemp
  | write (partialData : String)
  | move
deriving Repr, DecidableEq

/-- Creation of the `NamedTemporaryFile` (empty so far). -/
def mkTemp (fs : FS) : FS := { fs with temp := some "" }

/-- Writing `json.dump(entries, tf)` output into the temporary file. -/
def writeTemp (fs : FS) (data : String) : FS := { fs with temp := some data }

/-- The `shutil.move(temp_filename, self.filename)` rename: the
temporary file's content becomes the target, the temporary file is
gone. -/
def moveTempToTarget (fs : FS) : FS := { target := fs.temp, temp := none }

/-- The `finally` clause: `os.remove(temp_filename)` when that file
still exists (a no-op otherwise). -/
def removeTempIfExists (fs : FS) : FS := { fs with temp := none }

/-- Embedding of `JournalStorage.save_entries(entries)` over the
abstract file system, with `data` the serialized collection and `fail`
the point of failure, if any.  Returns the final file-system state and
whether an error was reported (the `except` branch ran).  On
`createTemp` the local `temp_filename` is still `None`, so the
`finally` clause removes nothing. -/
def save_entries (fs : FS) (data : String) (fail : SaveFail) : FS × Bool :=
  match fail with
  | .noFail =>
    (removeTempIfExists (moveTempToTarget (writeTemp (mkTemp fs) data)), false)
  | .createTemp =>
    (fs, true)
  | .write partialData =>
    (removeTempIfExists (writeTemp (mkTemp fs) partialData), true)
  | .move =>
    (removeTempIfExists (writeTemp (mkTemp fs) data), true)

/-! ### Specification-side definitions -/

/-- The numbering invariant of the spec: `entry_number` equals the
zero-based position plus one, for every entry of the list. -/
def numbered (l : List Entry) : Prop :=
  ∀ i (h : i < l.length), (l.get ⟨i, h⟩).entry_number = i + 1

/-- Substring relation of the spec: `needle` occurs contiguously inside
`hay`. -/
def substrOf (needle hay : String) : Prop :=
  ∃ l r, hay.data = l ++ needle.data ++ r

/-- Case-insensitive match of the spec: the lowered keyword is a
substring of the lowered title or of the lowered content. -/
def ciMatch (kw : String) (e : Entry) : Prop :=
  substrOf (strLower kw) (strLower e.title) ∨
    substrOf (strLower kw) (strLower e.content)

/-- One `add_entry` request: the fresh UUID and the timestamp drawn
inside the call, together with the title and content passed in. -/
structure AddOp where
  uid : String
  dt : String
  title : String
  content : String
deriving Repr, DecidableEq

/-- A sequence of `add_entry` calls, performed left to right. -/
def addAll (m : JournalModel) : List AddOp → JournalModel
  | [] => m
  | op :: rest => addAll (m.add_entry op.uid op.dt op.title op.content).1 rest

/-- Shifted numbering invariant: entry at offset `i` carries number
`n + i + 1`.  `numberedFrom 0` is `numbered`. -/
def numberedFrom (n : Nat) (l : List Entry) : Prop :=
  ∀ i (h : i < l.length), (l.get ⟨i, h⟩).entry_number = n + i + 1

/-- A concrete entry for the witness statements. -/
def sampleEntry (uid : String) (num : Nat) (t c : String) : Entry :=
  { unique_id := uid, entry_number := num, title := t, content := c,
    date_time := "2025-04-14 07:35:00" }

/-- A concrete two-entry model for the witness statements. -/
def sampleModel : JournalModel :=
  { entries := [sampleEntry "id-a" 1 "Catalog" "x",
                sampleEntry "id-b" 2 "dog walk" "y"],
    saveCount := 2 }

/-- Concrete add requests for the witness statements. -/
def sampleOps : List AddOp :=
  [{ uid := "id-a", dt := "2025-04-14 07:35:00", title := "A", content := "x" },
   { uid := "id-b", dt := "2025-04-14 07:36:00", title := "B", content := "y" }]

/-! ### Helper lemmas -/

theorem isPrefixOfChars_iff (n : List Char) :
    ∀ h : List Char, isPrefixOfChars n h = true ↔ ∃ r, h = n ++ r := by
  induction n with
  | nil =>
    intro h
    simp [isPrefixOfChars]
  | cons a as ih =>
    intro h
    cases h with
    | nil =>
      simp [isPrefixOfChars]
    | cons b bs =>
      simp only [isPrefixOfChars, Bool.and_eq_true, beq_iff_eq, ih bs]
      constructor
      · rintro ⟨rfl, r, rfl⟩
        exact ⟨r, rfl⟩
      · rintro ⟨r, hr⟩
        cases hr
        exact ⟨rfl, r, rfl⟩

theorem containsChars_iff (n : List Char) :
    ∀ h : List Char, containsChars n h = true ↔ ∃ l r, h = l ++ n ++ r := by
  intro h
  induction h with
  | nil =>
    simp only [containsChars, isPrefixOfChars_iff]
    constructor
    · rintro ⟨r, hr⟩
      exact ⟨[], r, by simpa using hr⟩
    · rintro ⟨l, r, hlr⟩
      have hl : l = [] := by
        cases l with
        | nil => rfl
        | cons x xs => simp at hlr
      subst hl
      exact ⟨r, by simpa using hlr⟩
  | cons c cs ih =>
    simp only [containsChars, Bool.or_eq_true, isPrefixOfChars_iff, ih]
    constructor
    · rintro (⟨r, hr⟩ | ⟨l, r, hlr⟩)
      · exact ⟨[], r, by simpa using hr⟩
      · exact ⟨c :: l, r, by simp [hlr]⟩
    · rintro ⟨l, r, hlr⟩
      cases l with
      | nil =>
        exact Or.inl ⟨r, by simpa using hlr⟩
      | cons x xs =>
        simp only [List.cons_append, List.cons.injEq] at hlr
        exact Or.inr ⟨xs, r, hlr.2⟩

instance (n h : String) : Decidable (substrOf n h) :=
  decidable_of_iff (containsChars n.data h.data = true)
    (by rw [containsChars_iff]; exact Iff.rfl)

theorem containsChars_nil_needle (h : List Char) : containsChars [] h = true := by
  cases h <;> simp [containsChars, isPrefixOfChars]

instance (kw : String) (e : Entry) : Decidable (ciMatch kw e) := by
  unfold ciMatch
  infer_instance

theorem decide_ciMatch (kw : String) (e : Entry) :
    decide (ciMatch kw e)
      = (containsChars (strLower kw).data (strLower e.title).data
          || containsChars (strLower kw).data (strLower e.content).data) := by
  have ht := containsChars_iff (strLower kw).data (strLower e.title).data
  have hc := containsChars_iff (strLower kw).data (strLower e.content).data
  cases hb1 : containsChars (strLower kw).data (strLower e.title).data with
  | true =>
    simp only [Bool.true_or]
    exact decide_eq_true (Or.inl (ht.1 hb1))
  | false =>
    cases hb2 : containsChars (strLower kw).data (strLower e.content).data with
    | true =>
      simp only [Bool.false_or]
      exact decide_eq_true (Or.inr (hc.1 hb2))
    | false =>
      simp only [Bool.or_self]
      refine decide_eq_false ?_
      rintro (hs | hs)
      · have h2 := ht.2 hs
        rw [hb1] at h2
        exact Bool.false_ne_true h2
      · have h2 := hc.2 hs
        rw [hb2] at h2
        exact Bool.false_ne_true h2

theorem numbered_append_one {l : List Entry} {e : Entry}
    (hl : numbered l) (he : e.entry_number = l.length + 1) :
    numbered (l ++ [e]) := by
  intro i h
  rcases Nat.lt_or_ge i l.length with hi | hi
  · rw [List.get_eq_getElem, List.getElem_append_left hi]
    exact hl i hi
  · have hlen : i < l.length + 1 := by simpa using h
    have hieq : i = l.length := Nat.le_antisymm (Nat.lt_succ_iff.mp hlen) hi
    rw [List.get_eq_getElem, List.getElem_concat_length l e i hieq]
    rw [he, hieq]

theorem addAll_entries_uids (ops : List AddOp) :
    ∀ m : JournalModel,
      (addAll m ops).entries.map Entry.unique_id
        = m.entries.map Entry.unique_id ++ ops.map AddOp.uid := by
  induction ops with
  | nil => intro m; simp [addAll]
  | cons op rest ih =>
    intro m
    rw [addAll, ih]
    simp [JournalModel.add_entry]

theorem addAll_numbered (ops : List AddOp) :
    ∀ m : JournalModel, numbered m.entries → numbered (addAll m ops).entries := by
  induction ops with
  | nil => intro m hm; simpa [addAll] using hm
  | cons op rest ih =>
    intro m hm
    exact ih _ (numbered_append_one hm rfl)

theorem length_renumberFrom (l : List Entry) :
    ∀ n, (JournalModel.renumberFrom n l).length = l.length := by
  induction l with
  | nil => intro n; rfl
  | cons e rest ih => intro n; simp [JournalModel.renumberFrom, ih]

theorem renumberFrom_numberedFrom (l : List Entry) :
    ∀ n, numberedFrom n (JournalModel.renumberFrom n l) := by
  induction l with
  | nil =>
    intro n i h
    simp [JournalModel.renumberFrom] at h
  | cons e rest ih =>
    intro n i h
    cases i with
    | zero => simp [JournalModel.renumberFrom]
    | succ j =>
      have hlen : j < (JournalModel.renumberFrom (n + 1) rest).length :=
        Nat.lt_of_succ_lt_succ h
      have hstep := ih (n + 1) j hlen
      calc ((JournalModel.renumberFrom n (e :: rest)).get ⟨j + 1, h⟩).entry_number
          = ((JournalModel.renumberFrom (n + 1) rest).get ⟨j, hlen⟩).entry_number := rfl
        _ = n + 1 + j + 1 := hstep
        _ = n + (j + 1) + 1 := by omega

theorem numbered_renumber (l : List Entry) :
    numbered (JournalModel.renumber l) := by
  intro i h
  have := renumberFrom_numberedFrom l 0 i h
  simpa using this

theorem map_entryData_renumberFrom (l : List Entry) :
    ∀ n, (JournalModel.renumberFrom n l).map entryData = l.map entryData := by
  induction l with
  | nil => intro n; rfl
  | cons e rest ih => intro n; simp [JournalModel.renumberFrom, entryData, ih]

theorem popAt_eq (l : List Entry) :
    ∀ p, p < l.length →
      JournalModel.popAt l p = l.take p ++ l.drop (p + 1) := by
  induction l with
  | nil => intro p hp; simp at hp
  | cons e rest ih =>
    intro p hp
    cases p with
    | zero => simp [JournalModel.popAt]
    | succ q =>
      simp [JournalModel.popAt, ih q (Nat.lt_of_succ_lt_succ hp),
        List.take_succ_cons, List.drop_succ_cons]

theorem length_popAt (l : List Entry) :
    ∀ p, p < l.length →
      (JournalModel.popAt l p).length = l.length - 1 := by
  induction l with
  | nil => intro p hp; simp at hp
  | cons e rest ih =>
    intro p hp
    cases p with
    | zero => simp [JournalModel.popAt]
    | succ q =>
      have hq := Nat.lt_of_succ_lt_succ hp
      have := ih q hq
      simp only [JournalModel.popAt, List.length_cons, this]
      omega

theorem length_modifyAt (l : List Entry) (f : Entry → Entry) :
    ∀ i, (JournalModel.modifyAt l i f).length = l.length := by
  induction l with
  | nil => intro i; rfl
  | cons e rest ih =>
    intro i
    cases i with
    | zero => rfl
    | succ j => simp [JournalModel.modifyAt, ih]

theorem getElem?_modifyAt_ne (l : List Entry) (f : Entry → Entry) :
    ∀ i j, j ≠ i → (JournalModel.modifyAt l i f)[j]? = l[j]? := by
  induction l with
  | nil => intro i j hj; rfl
  | cons e rest ih =>
    intro i j hj
    cases i with
    | zero =>
      cases j with
      | zero => exact absurd rfl hj
      | succ k => simp [JournalModel.modifyAt]
    | succ i2 =>
      cases j with
      | zero => simp [JournalModel.modifyAt]
      | succ k =>
        simp only [JournalModel.modifyAt, List.getElem?_cons_succ]
        exact ih i2 k (fun hh => hj (by rw [hh]))

theorem getElem?_modifyAt_self (l : List Entry) (f : Entry → Entry) :
    ∀ i, (JournalModel.modifyAt l i f)[i]? = (l[i]?).map f := by
  induction l with
  | nil => intro i; rfl
  | cons e rest ih =>
    intro i
    cases i with
    | zero => simp [JournalModel.modifyAt]
    | succ j => simp [JournalModel.modifyAt, List.getElem?_cons_succ, ih]

theorem searchFrom_eq_filter (kl : String) (l : List Entry) :
    ∀ i, JournalModel.searchFrom kl i l
      = (List.enumFrom i l).filter (fun p =>
          containsChars kl.data (strLower p.2.title).data
            || containsChars kl.data (strLower p.2.content).data) := by
  induction l with
  | nil => intro i; rfl
  | cons e rest ih =>
    intro i
    cases hcond : (containsChars kl.data (strLower e.title).data
        || containsChars kl.data (strLower e.content).data) with
    | true =>
      simp [JournalModel.searchFrom, hcond, ih, List.enumFrom, List.filter_cons]
    | false =>
      simp [JournalModel.searchFrom, hcond, ih, List.enumFrom, List.filter_cons]

theorem searchFrom_nil_data (kl : String) (hk : kl.data = [])
    (l : List Entry) :
    ∀ i, JournalModel.searchFrom kl i l = List.enumFrom i l := by
  induction l with
  | nil => intro i; rfl
  | cons e rest ih =>
    intro i
    simp [JournalModel.searchFrom, hk, containsChars_nil_needle, ih,
      List.enumFrom]

/-! ### Claim theorems -/

/-- C1: starting from the empty collection, any sequence of `add_entry`
calls with fresh (pairwise distinct) UUIDs yields a collection in which
every entry's `entry_number` equals its zero-based position plus one,
whose length is the number of adds, and whose `unique_id` values are
exactly the supplied fresh ids in order, hence pairwise distinct. -/
theorem add_sequence_correct (ops : List AddOp)
    (hfresh : (ops.map AddOp.uid).Nodup) :
    numbered (addAll emptyModel ops).entries
      ∧ (addAll emptyModel ops).entries.length = ops.length
      ∧ ((addAll emptyModel ops).entries.map Entry.unique_id).Nodup
      ∧ (addAll emptyModel ops).entries.map Entry.unique_id
          = ops.map AddOp.uid := by
  have hm : (addAll emptyModel ops).entries.map Entry.unique_id
      = ops.map AddOp.uid := by
    simpa [emptyModel] using addAll_entries_uids ops emptyModel
  refine ⟨addAll_numbered ops emptyModel ?_, ?_, ?_, hm⟩
  · intro i h
    simp [emptyModel] at h
  · have := congrArg List.length hm
    simpa using this
  · rw [hm]
    exact hfresh

/-- Witness for C1: two concrete adds with distinct fresh ids. -/
theorem add_sequence_correct_witness :
    (sampleOps.map AddOp.uid).Nodup
      ∧ (numbered (addAll emptyModel sampleOps).entries
          ∧ (addAll emptyModel sampleOps).entries.length = sampleOps.length
          ∧ ((addAll emptyModel sampleOps).entries.map Entry.unique_id).Nodup
          ∧ (addAll emptyModel sampleOps).entries.map Entry.unique_id
              = sampleOps.map AddOp.uid) :=
  ⟨by decide, add_sequence_correct sampleOps (by decide)⟩

/-- C2: deleting a valid position `p` returns `True`, shrinks the
collection by one, keeps the remaining entries (identity, texts,
timestamps) in their original relative order — the original list with
position `p` removed — and renumbers them to the dense sequence
position + 1. -/
theorem delete_entry_correct (m : JournalModel) (p : Nat)
    (hp : p < m.entries.length) :
    (m.delete_entry p).2 = true
      ∧ (m.delete_entry p).1.entries.length = m.entries.length - 1
      ∧ (m.delete_entry p).1.entries.map entryData
          = (m.entries.take p ++ m.entries.drop (p + 1)).map entryData
      ∧ numbered (m.delete_entry p).1.entries := by
  have hcond : 0 ≤ (p : Int) ∧ (p : Int) < (m.entries.length : Int) :=
    ⟨Int.natCast_nonneg p, by exact_mod_cast hp⟩
  have htn : ((p : Int)).toNat = p := Int.toNat_natCast p
  have heq : m.delete_entry p
      = ({ entries := JournalModel.renumber (JournalModel.popAt m.entries p),
           saveCount := m.saveCount + 1 }, true) := by
    simp only [JournalModel.delete_entry, htn]
    rw [if_pos hcond]
  rw [heq]
  refine ⟨rfl, ?_, ?_, numbered_renumber _⟩
  · show (JournalModel.renumber (JournalModel.popAt m.entries p)).length
        = m.entries.length - 1
    rw [JournalModel.renumber, length_renumberFrom, length_popAt m.entries p hp]
  · show (JournalModel.renumber (JournalModel.popAt m.entries p)).map entryData
        = (m.entries.take p ++ m.entries.drop (p + 1)).map entryData
    rw [JournalModel.renumber, map_entryData_renumberFrom,
      popAt_eq m.entries p hp]

/-- Witness for C2: deleting position 0 of a concrete two-entry model. -/
theorem delete_entry_correct_witness :
    0 < sampleModel.entries.length
      ∧ ((sampleModel.delete_entry 0).2 = true
          ∧ (sampleModel.delete_entry 0).1.entries.length
              = sampleModel.entries.length - 1
          ∧ (sampleModel.delete_entry 0).1.entries.map entryData
              = (sampleModel.entries.take 0
                  ++ sampleModel.entries.drop 1).map entryData
          ∧ numbered (sampleModel.delete_entry 0).1.entries) :=
  ⟨by decide, delete_entry_correct sampleModel 0 (by decide)⟩

/-- C3: `update_entry` and `delete_entry` at any index outside
`[0, length)` — negative or too large — return `False` and leave the
model, collection and save counter exactly as they were. -/
theorem out_of_range_noop (m : JournalModel) (index : Int)
    (dt title content : String)
    (h : index < 0 ∨ (m.entries.length : Int) ≤ index) :
    m.update_entry index dt title content = (m, false)
      ∧ m.delete_entry index = (m, false) := by
  have hn : ¬(0 ≤ index ∧ index < (m.entries.length : Int)) := by
    rintro ⟨h1, h2⟩
    rcases h with h3 | h3 <;> omega
  constructor
  · simp only [JournalModel.update_entry]
    rw [if_neg hn]
  · simp only [JournalModel.delete_entry]
    rw [if_neg hn]

/-- Witness for C3: index 5 on a concrete two-entry model. -/
theorem out_of_range_noop_witness :
    ((5 : Int) < 0 ∨ (sampleModel.entries.length : Int) ≤ 5)
      ∧ (sampleModel.update_entry 5 "d" "t" "c" = (sampleModel, false)
          ∧ sampleModel.delete_entry 5 = (sampleModel, false)) :=
  ⟨by decide, out_of_range_noop sampleModel 5 "d" "t" "c" (by decide)⟩

/-- C4: when the stripped title is empty, both `add_new_entry` and
`edit_entry` fail with the empty-title error and return the model
untouched — same collection and same save counter, so `save_entries`
was not called — and `edit_entry` never reached the repository. -/
theorem empty_title_rejected (m : JournalModel) (uid dt : String)
    (index : Int) (title content : String) (h : pyStrip title = "") :
    JournalController.add_new_entry m uid dt title content
        = (.error .emptyTitle, m)
      ∧ JournalController.edit_entry m index dt title content
        = (.error .emptyTitle, m, false) := by
  constructor
  · simp only [JournalController.add_new_entry]
    rw [if_pos h]
  · simp only [JournalController.edit_entry]
    rw [if_pos h]

/-- Witness for C4: a single-space title on a concrete model. -/
theorem empty_title_rejected_witness :
    pyStrip " " = ""
      ∧ (JournalController.add_new_entry sampleModel "id-c" "d" " " "text"
            = (.error .emptyTitle, sampleModel)
          ∧ JournalController.edit_entry sampleModel 0 "d" " " "text"
            = (.error .emptyTitle, sampleModel, false)) :=
  ⟨by decide, empty_title_rejected sampleModel "id-c" "d" 0 " " "text"
    (by decide)⟩

/-- C5: `search_entries` returns exactly the entries whose title or
content contains the keyword as a case-insensitive substring (`ciMatch`:
the lowered keyword decomposes the lowered text as `l ++ kw ++ r`), each
paired with its zero-based position, in collection order — it is the
filter of the enumerated collection by that predicate. -/
theorem search_entries_correct (m : JournalModel) (kw : String) :
    m.search_entries kw
      = m.entries.enum.filter (fun p => decide (ciMatch kw p.2)) := by
  have hfun : (fun p : Nat × Entry => decide (ciMatch kw p.2))
      = (fun p : Nat × Entry =>
          containsChars (strLower kw).data (strLower p.2.title).data
            || containsChars (strLower kw).data (strLower p.2.content).data) := by
    funext p
    exact decide_ciMatch kw p.2
  rw [hfun, JournalModel.search_entries, searchFrom_eq_filter]
  rfl

/-- C6: with the empty keyword, `search_entries` deterministically
follows one fixed policy on every collection: it returns the full
collection, every entry paired with its position. -/
theorem search_empty_keyword (m : JournalModel) :
    m.search_entries "" = m.entries.enum := by
  rw [JournalModel.search_entries, searchFrom_nil_data (strLower "") rfl]
  rfl

/-- C7: updating a valid position `p` returns `True`, saves once, keeps
the length, leaves every other position untouched, and rewrites exactly
the title, content and date_time of the entry at `p`, preserving its
`unique_id` and `entry_number`. -/
theorem update_entry_correct (m : JournalModel) (p : Nat)
    (hp : p < m.entries.length) (dt title content : String) :
    (m.update_entry p dt title content).2 = true
      ∧ (m.update_entry p dt title content).1.saveCount = m.saveCount + 1
      ∧ (m.update_entry p dt title content).1.entries.length
          = m.entries.length
      ∧ (∀ j, j ≠ p →
          (m.update_entry p dt title content).1.entries[j]? = m.entries[j]?)
      ∧ (m.update_entry p dt title content).1.entries[p]?
          = (m.entries[p]?).map
              (fun e => { e with title := title, content := content, date_time := dt }) := by
  have hcond : 0 ≤ (p : Int) ∧ (p : Int) < (m.entries.length : Int) :=
    ⟨Int.natCast_nonneg p, by exact_mod_cast hp⟩
  have htn : ((p : Int)).toNat = p := Int.toNat_natCast p
  have heq : m.update_entry p dt title content
      = ({ entries := JournalModel.modifyAt m.entries p
             (fun e => { e with title := title, content := content, date_time := dt }),
           saveCount := m.saveCount + 1 }, true) := by
    simp only [JournalModel.update_entry, htn]
    rw [if_pos hcond]
  rw [heq]
  refine ⟨rfl, rfl, ?_, ?_, ?_⟩
  · exact length_modifyAt m.entries _ p
  · intro j hj
    exact getElem?_modifyAt_ne m.entries _ p j hj
  · exact getElem?_modifyAt_self m.entries _ p

/-- Witness for C7: updating position 0 of a concrete two-entry model. -/
theorem update_entry_correct_witness :
    0 < sampleModel.entries.length
      ∧ ((sampleModel.update_entry 0 "d2" "T2" "C2").2 = true
          ∧ (sampleModel.update_entry 0 "d2" "T2" "C2").1.saveCount
              = sampleModel.saveCount + 1) :=
  ⟨by decide,
    (update_entry_correct sampleModel 0 (by decide) "d2" "T2" "C2").1,
    (update_entry_correct sampleModel 0 (by decide) "d2" "T2" "C2").2.1⟩

/-- C8: `load_entries` is total — every outcome of the file system and
the parser yields a defined result.  A missing file gives the empty list
with nothing reported; an unparseable file gives the empty list with a
corruption report; any other read failure gives the empty list with an
I/O report; a parseable file gives its entries. -/
theorem load_entries_total (parse : String → ParseOutcome) (raw : String) :
    load_entries .absent parse = ([], .noError)
      ∧ (parse raw = .jsonError →
          load_entries (.content raw) parse = ([], .corruption))
      ∧ (parse raw = .otherError →
          load_entries (.content raw) parse = ([], .ioFailure))
      ∧ (∀ es, parse raw = .ok es →
          load_entries (.content raw) parse = (es, .noError)) := by
  refine ⟨rfl, ?_, ?_, ?_⟩
  · intro h
    simp [load_entries, h]
  · intro h
    simp [load_entries, h]
  · intro es h
    simp [load_entries, h]

/-- Witness for C8: a parser that always reports a JSON error. -/
theorem load_entries_total_witness :
    load_entries .absent (fun _ => .jsonError) = ([], .noError)
      ∧ load_entries (.content "x") (fun _ => .jsonError)
          = ([], .corruption) :=
  ⟨(load_entries_total (fun _ => ParseOutcome.jsonError) "x").1,
    (load_entries_total (fun _ => ParseOutcome.jsonError) "x").2.1 rfl⟩

/-- C9: `save_entries` writes the data into a fresh temporary file and
moves it over the target; on success the target holds the new data and
no temporary file remains.  On a failure while writing or while moving,
the failure is reported, the temporary file is removed by the cleanup
clause, and the target keeps its previous content; a failure creating
the temporary file also leaves the target untouched. -/
theorem save_entries_atomic (fs : FS) (data partialData : String) :
    save_entries fs data .noFail
        = ({ target := some data, temp := none }, false)
      ∧ save_entries fs data (.write partialData)
          = ({ target := fs.target, temp := none }, true)
      ∧ save_entries fs data .move
          = ({ target := fs.target, temp := none }, true)
      ∧ save_entries fs data .createTemp = (fs, true) :=
  ⟨rfl, rfl, rfl, rfl⟩

/-- C10: `edit_entry` checks the stripped title before consulting the
repository: for every index, valid or not, a blank title produces the
empty-title error — never the not-found error — with the model untouched
and `update_entry` not invoked (the consulted flag is `false`). -/
theorem edit_entry_title_check_first (m : JournalModel) (index : Int)
    (dt title content : String) (h : pyStrip title = "") :
    JournalController.edit_entry m index dt title content
      = (.error .emptyTitle, m, false) := by
  simp only [JournalController.edit_entry]
  rw [if_pos h]

/-- Witness for C10: a two-space title at the valid index 1. -/
theorem edit_entry_title_check_first_witness :
    pyStrip "  " = ""
      ∧ JournalController.edit_entry sampleModel 1 "d" "  " "c"
          = (.error .emptyTitle, sampleModel, false) :=
  ⟨by decide,
    edit_entry_title_check_first sampleModel 1 "d" "  " "c" (by decide)⟩
